import Mathlib

/-
Shallow embedding of dags/scripts/fetch_and_store.py.

The pipeline fetches daily price data per symbol with bounded retry and
exponential backoff, normalizes provider records into canonical rows, and
upserts them into a store keyed by (symbol, ts).

Python float/int parsing of provider strings is abstracted as parameters
pf : String -> Option Rat and pz : String -> Option Int (none models a
raised ValueError). Network responses are a function from attempt number
to an HttpResult. Database row writes that may raise are modelled by a
predicate writeOk; the NOW() timestamp is an explicit Nat parameter.
-/

/- Canonical row produced by normalization (fetch_and_store.py lines 51-59). -/
structure PriceRow where
  symbol : String
  ts : String
  openV : ℚ
  highV : ℚ
  lowV : ℚ
  closeV : ℚ
  volume : Int
deriving Repr, DecidableEq

/- Persisted row of the stock_prices table. -/
structure DBRow where
  symbol : String
  ts : String
  openV : ℚ
  highV : ℚ
  lowV : ℚ
  closeV : ℚ
  volume : Int
  updated_at : Nat
deriving Repr, DecidableEq

abbrev Store := List DBRow

/- Conflict target of the ON CONFLICT (symbol, ts) clause. -/
def keyMatch (r : PriceRow) (d : DBRow) : Bool :=
  d.symbol == r.symbol && d.ts == r.ts

/- DO UPDATE SET open/high/low/close/volume = EXCLUDED..., updated_at = NOW(). -/
def applyUpdate (now : Nat) (r : PriceRow) (d : DBRow) : DBRow :=
  { d with openV := r.openV, highV := r.highV, lowV := r.lowV,
           closeV := r.closeV, volume := r.volume, updated_at := now }

/- Freshly INSERTed row; updated_at is server-assigned on write. -/
def newRow (now : Nat) (r : PriceRow) : DBRow :=
  { symbol := r.symbol, ts := r.ts, openV := r.openV, highV := r.highV,
    lowV := r.lowV, closeV := r.closeV, volume := r.volume, updated_at := now }

def updFun (now : Nat) (r : PriceRow) : DBRow → DBRow :=
  fun d => if keyMatch r d then applyUpdate now r d else d

/- One execution of the INSERT ... ON CONFLICT (symbol, ts) DO UPDATE statement
(fetch_and_store.py lines 69-84). -/
def execUpsert (now : Nat) (st : Store) (r : PriceRow) : Store :=
  if st.any (keyMatch r) then st.map (updFun now r)
  else st ++ [newRow now r]

/- Number of persisted rows sharing the (symbol, ts) key of r. -/
def keyCount (st : Store) (r : PriceRow) : Nat :=
  (st.filter (keyMatch r)).length

/- upsert_rows (lines 64-87) on a list argument: `if not rows` is the Python
emptiness test for a list; the loop attempts each row, catching per-row write
failures (writeOk r = false, logged); len(list(rows)) re-measures the list. -/
def upsert_rows (now : Nat) (writeOk : PriceRow → Bool) (st : Store)
    (rows : List PriceRow) : Store × Nat :=
  if rows.isEmpty then (st, 0)
  else (rows.foldl (fun s r => if writeOk r then execUpsert now s r else s) st,
        rows.length)

/- A one-shot Python iterator (generator) over rows: consuming it empties it. -/
structure PyIterator where
  pending : List PriceRow
deriving Repr, DecidableEq

def drainIterator (it : PyIterator) : List PriceRow × PyIterator :=
  (it.pending, { pending := [] })

/- bool(generator object) is True regardless of what it will yield. -/
def pyTruthyIterator (_ : PyIterator) : Bool := true

/- upsert_rows (lines 64-87) on a one-shot iterator argument: `if not rows`
sees a truthy generator object, the for-loop drains it, and len(list(rows))
measures what is left afterwards. -/
def upsert_rows_iter (now : Nat) (writeOk : PriceRow → Bool) (st : Store)
    (it : PyIterator) : Store × Nat :=
  if pyTruthyIterator it = false then (st, 0)
  else
    let firstPass := drainIterator it
    let st1 := firstPass.1.foldl
      (fun s r => if writeOk r then execUpsert now s r else s) st
    let secondPass := drainIterator firstPass.2
    (st1, secondPass.1.length)

/- Raw provider values for one date: the "1. open" ... "6. volume" entries,
each possibly missing. -/
structure RawVals where
  openS : Option String
  highS : Option String
  lowS : Option String
  closeS : Option String
  volumeS : Option String
deriving Repr, DecidableEq

/- A JSON payload value: a plain string (Note / Error Message) or a
time-series object mapping date keys to raw values. -/
inductive PVal where
  | str (s : String)
  | series (entries : List (String × RawVals))
deriving Repr, DecidableEq

abbrev Payload := List (String × PVal)

/- Result of one requests.get call. -/
inductive HttpResult where
  | transportError (msg : String)
  | response (status : Nat) (body : Payload)

def hasKeyP (p : Payload) (k : String) : Bool :=
  p.any (fun kv => kv.1 == k)

def getValP (p : Payload) (k : String) : Option PVal :=
  (p.find? (fun kv => kv.1 == k)).map (fun kv => kv.2)

def noteText (p : Payload) (k : String) : String :=
  match getValP p k with
  | some (PVal.str s) => s
  | _ => ""

/- Body of the try block (lines 19-26): transport failure and non-2xx raise,
then a "Note" key (throttle) or an "Error Message" key raises RuntimeError,
otherwise the payload is returned. -/
def attemptOnce (r : HttpResult) : Except String Payload :=
  match r with
  | HttpResult.transportError m => Except.error m
  | HttpResult.response status body =>
    if 400 ≤ status then Except.error ("HTTP error " ++ toString status)
    else if hasKeyP body "Note" then
      Except.error ("API limit/throttle: " ++ noteText body "Note")
    else if hasKeyP body "Error Message" then
      Except.error (noteText body "Error Message")
    else Except.ok body

/- Observable outcome of _request_with_retries: the returned value (none when
the loop falls through, for retries = 0), the number of requests.get calls
made, and the time.sleep durations in order. -/
structure RetryTrace where
  result : Option (Except String Payload)
  attempts : Nat
  sleeps : List ℚ
deriving Repr

/- The loop `for attempt in range(1, retries + 1)` (lines 17-32), unrolled on
fuel = remaining iterations: on success return; on failure raise when
attempt == retries, else sleep backoff ** attempt and continue. -/
def retryAux (net : Nat → HttpResult) (retries : Nat) (backoff : ℚ) :
    Nat → Nat → RetryTrace
  | 0, _ => { result := none, attempts := 0, sleeps := [] }
  | fuel + 1, attempt =>
    match attemptOnce (net attempt) with
    | Except.ok d => { result := some (Except.ok d), attempts := 1, sleeps := [] }
    | Except.error e =>
      if attempt = retries then
        { result := some (Except.error e), attempts := 1, sleeps := [] }
      else
        let rest := retryAux net retries backoff fuel (attempt + 1)
        { result := rest.result, attempts := rest.attempts + 1,
          sleeps := backoff ^ attempt :: rest.sleeps }

/- _request_with_retries (lines 15-32); attempts are numbered from 1. -/
def _request_with_retries (net : Nat → HttpResult) (retries : Nat)
    (backoff : ℚ) : RetryTrace :=
  retryAux net retries backoff retries 1

/- The parts of a RetryTrace that do not depend on payload contents: attempt
count, sleep schedule, and whether the returned value is a success. -/
def isOkE {α β : Type} : Except α β → Bool
  | Except.ok _ => true
  | Except.error _ => false

def traceShape (t : RetryTrace) : Nat × List ℚ × Option Bool :=
  (t.attempts, t.sleeps, t.result.map isOkE)

/- float(vals.get(k) or 0.0): a missing or empty value falls back to 0,
otherwise the string is parsed (pf s = none models float() raising). -/
def parseFieldQ (pf : String → Option ℚ) (v : Option String) : Option ℚ :=
  match v with
  | none => some 0
  | some s => if s == "" then some 0 else pf s

/- int(vals.get(k) or 0), same fallback discipline. -/
def parseFieldZ (pz : String → Option Int) (v : Option String) : Option Int :=
  match v with
  | none => some 0
  | some s => if s == "" then some 0 else pz s

/- One iteration of the normalization loop body (lines 50-59): build the row
dict, any field parse failure dropping the record. -/
def parseRecord (pf : String → Option ℚ) (pz : String → Option Int)
    (symbol : String) (entry : String × RawVals) : Option PriceRow :=
  match parseFieldQ pf entry.2.openS, parseFieldQ pf entry.2.highS,
        parseFieldQ pf entry.2.lowS, parseFieldQ pf entry.2.closeS,
        parseFieldZ pz entry.2.volumeS with
  | some o, some h, some l, some c, some v =>
    some { symbol := symbol, ts := entry.1, openV := o, highV := h,
           lowV := l, closeV := c, volume := v }
  | _, _, _, _, _ => none

/- The normalization loop (lines 48-62): kept rows in order, paired with the
number of skipped-malformed-row warnings logged. -/
def normalizeSeries (pf : String → Option ℚ) (pz : String → Option Int)
    (symbol : String) : List (String × RawVals) → List PriceRow × Nat
  | [] => ([], 0)
  | entry :: rest =>
    let tail := normalizeSeries pf pz symbol rest
    match parseRecord pf pz symbol entry with
    | some r => (r :: tail.1, tail.2)
    | none => (tail.1, tail.2 + 1)

/- Number of records in a series whose parse fails. -/
def malformedCount (pf : String → Option ℚ) (pz : String → Option Int)
    (symbol : String) (series : List (String × RawVals)) : Nat :=
  (series.filter (fun e => (parseRecord pf pz symbol e).isNone)).length

/- str.lower, character by character. -/
def pyLower (s : String) : List Char := s.toList.map Char.toLower

/- k.lower().startswith("time series"). -/
def pyStartsWithTimeSeries (s : String) : Bool :=
  List.isPrefixOf "time series".toList (pyLower s)

/- next((k for k in payload.keys() if k.lower().startswith("time series")), None). -/
def findTsKey (p : Payload) : Option String :=
  (p.find? (fun kv => pyStartsWithTimeSeries kv.1)).map (fun kv => kv.1)

/- fetch_daily_adjusted (lines 34-62): request with default retries=5,
backoff=1.5, locate the time-series key (absence raises ValueError), then
normalize its records. -/
def fetch_daily_adjusted (pf : String → Option ℚ) (pz : String → Option Int)
    (net : Nat → HttpResult) (symbol : String) : Except String (List PriceRow) :=
  match (_request_with_retries net 5 (3 / 2)).result with
  | none => Except.error "AttributeError: NoneType has no attribute keys"
  | some (Except.error e) => Except.error e
  | some (Except.ok payload) =>
    match findTsKey payload with
    | none => Except.error ("Unexpected response structure for " ++ symbol)
    | some k =>
      if hasKeyP payload k = false then
        Except.error ("Unexpected response structure for " ++ symbol)
      else
        match getValP payload k with
        | some (PVal.series entries) =>
          Except.ok (normalizeSeries pf pz symbol entries).1
        | _ => Except.error "AttributeError: items"

/- Body of the per-symbol try block in run_once (lines 93-99): a fetch error
is caught and logged, leaving the store untouched; otherwise the rows are
upserted. -/
def processSymbol (pf : String → Option ℚ) (pz : String → Option Int)
    (responses : String → Nat → HttpResult) (writeOk : PriceRow → Bool)
    (now : Nat) (st : Store) (sym : String) : Store :=
  match fetch_daily_adjusted pf pz (responses sym) sym with
  | Except.ok rows => (upsert_rows now writeOk st rows).1
  | Except.error _ => st

/- run_once (lines 89-99): process each symbol in order, per-symbol failures
isolated. -/
def run_once (pf : String → Option ℚ) (pz : String → Option Int)
    (responses : String → Nat → HttpResult) (writeOk : PriceRow → Bool)
    (now : Nat) (symbols : List String) (st : Store) : Store :=
  symbols.foldl (processSymbol pf pz responses writeOk now) st

/- A canonical YYYY-MM-DD date string: ten characters, dashes at positions
4 and 7, digits elsewhere. -/
def isCanonicalDate (s : String) : Bool :=
  s.length == 10 && s.toList.enum.all (fun ic =>
    if ic.1 == 4 || ic.1 == 7 then ic.2 == '-' else ic.2.isDigit)

/- Concrete material used by witnesses and counterexamples. -/

def pfOne : String → Option ℚ := fun s => if s == "x" then none else some 1

def pzOne : String → Option Int := fun s => if s == "x" then none else some 1

def valsOne : RawVals :=
  { openS := some "1", highS := some "2", lowS := some "3",
    closeS := some "4", volumeS := some "5" }

def valsBad : RawVals :=
  { openS := some "x", highS := some "2", lowS := some "3",
    closeS := some "4", volumeS := some "5" }

def goodPayload : Payload :=
  [("Time Series (Daily)", PVal.series [("2024-01-02", valsOne)])]

def emptySeriesPayload : Payload :=
  [("Time Series (Daily)", PVal.series [])]

def metaOnlyPayload : Payload :=
  [("Meta Data", PVal.str "m")]

def netBoom : Nat → HttpResult := fun _ => HttpResult.transportError "boom"

def netGood : Nat → HttpResult := fun _ => HttpResult.response 200 goodPayload

def rowSample : PriceRow :=
  { symbol := "AAPL", ts := "2024-01-02", openV := 7, highV := 8, lowV := 9,
    closeV := 10, volume := 200 }

def dbSample : DBRow :=
  { symbol := "AAPL", ts := "2024-01-02", openV := 1, highV := 2, lowV := 3,
    closeV := 4, volume := 100, updated_at := 5 }

def rowSample2 : PriceRow :=
  { symbol := "AAPL", ts := "2024-01-03", openV := 11, highV := 12, lowV := 13,
    closeV := 14, volume := 300 }

def writeOkSample : PriceRow → Bool := fun r => r.ts != "2024-01-03"

def netTransient : Nat → HttpResult :=
  fun i => if i ≤ 3 then HttpResult.transportError "t"
           else HttpResult.response 200 goodPayload

def notePayload : Payload := [("Note", PVal.str "rate limited")]

def tsOddKey : String := "2024-01-01 09:30:00"

def seriesMixed : List (String × RawVals) :=
  [("2024-01-02", valsOne), ("2024-01-03", valsBad)]

def rowOne : PriceRow :=
  { symbol := "AAPL", ts := "2024-01-02", openV := 1, highV := 1, lowV := 1,
    closeV := 1, volume := 1 }

def responsesABC : String → Nat → HttpResult :=
  fun sym _ =>
    if sym == "B" then HttpResult.transportError "boom"
    else HttpResult.response 200 goodPayload

deriving instance DecidableEq for Except

/- Lemmas about the upsert statement. -/

theorem keyMatch_applyUpdate (n : Nat) (r : PriceRow) (d : DBRow) :
    keyMatch r (applyUpdate n r d) = keyMatch r d := by
  simp [keyMatch, applyUpdate]

theorem keyMatch_updFun (n : Nat) (r : PriceRow) (d : DBRow) :
    keyMatch r (updFun n r d) = keyMatch r d := by
  unfold updFun
  by_cases h : keyMatch r d <;> simp [h, keyMatch_applyUpdate]

theorem keyMatch_newRow (n : Nat) (r : PriceRow) :
    keyMatch r (newRow n r) = true := by
  simp [keyMatch, newRow]

theorem any_key_map_updFun (t : Nat) (r : PriceRow) (st : Store) :
    (st.map (updFun t r)).any (keyMatch r) = st.any (keyMatch r) := by
  induction st with
  | nil => rfl
  | cons d rest ih => simp only [List.map_cons, List.any_cons, keyMatch_updFun, ih]

theorem applyUpdate_applyUpdate (t1 t2 : Nat) (r : PriceRow) (d : DBRow) :
    applyUpdate t2 r (applyUpdate t1 r d) = applyUpdate t2 r d := by
  simp [applyUpdate]

theorem updFun_updFun (t1 t2 : Nat) (r : PriceRow) (d : DBRow) :
    updFun t2 r (updFun t1 r d) = updFun t2 r d := by
  unfold updFun
  by_cases h : keyMatch r d
  · simp [h, keyMatch_applyUpdate, applyUpdate_applyUpdate]
  · simp [h]

theorem map_updFun_of_not_any (t : Nat) (r : PriceRow) (st : Store)
    (h : st.any (keyMatch r) = false) : st.map (updFun t r) = st := by
  induction st with
  | nil => rfl
  | cons d rest ih =>
    simp only [List.any_cons, Bool.or_eq_false_iff] at h
    simp only [List.map_cons, updFun, h.1, ih h.2, if_neg, Bool.false_eq_true,
      not_false_iff]

theorem applyUpdate_newRow (t1 t2 : Nat) (r : PriceRow) :
    applyUpdate t2 r (newRow t1 r) = newRow t2 r := by
  simp [applyUpdate, newRow]

theorem execUpsert_twice (t1 t2 : Nat) (st : Store) (r : PriceRow) :
    execUpsert t2 (execUpsert t1 st r) r = execUpsert t2 st r := by
  by_cases h : st.any (keyMatch r)
  · have h1 : execUpsert t1 st r = st.map (updFun t1 r) := by
      simp [execUpsert, h]
    have h2 : (st.map (updFun t1 r)).any (keyMatch r) = true := by
      rw [any_key_map_updFun]; exact h
    rw [h1]
    simp only [execUpsert, h2, h, if_pos]
    simp [List.map_map, Function.comp, updFun_updFun]
  · have hf : st.any (keyMatch r) = false := by simpa using h
    have h1 : execUpsert t1 st r = st ++ [newRow t1 r] := by
      simp [execUpsert, hf]
    have h2 : (st ++ [newRow t1 r]).any (keyMatch r) = true := by
      simp [List.any_append, keyMatch_newRow]
    rw [h1]
    simp only [execUpsert, h2, hf, if_pos, Bool.false_eq_true, if_neg,
      not_false_iff]
    rw [List.map_append, map_updFun_of_not_any t2 r st hf]
    simp [updFun, keyMatch_newRow, applyUpdate_newRow]

theorem keyCount_map_updFun (t : Nat) (r : PriceRow) (st : Store) :
    keyCount (st.map (updFun t r)) r = keyCount st r := by
  unfold keyCount
  induction st with
  | nil => rfl
  | cons d rest ih =>
    simp only [List.map_cons, List.filter_cons, keyMatch_updFun]
    by_cases h : keyMatch r d <;> simp [h, ih]

theorem keyCount_pos_of_any (st : Store) (r : PriceRow)
    (h : st.any (keyMatch r) = true) : 1 ≤ keyCount st r := by
  rcases List.any_eq_true.mp h with ⟨d, hd, hk⟩
  have hmem : d ∈ st.filter (keyMatch r) := List.mem_filter.mpr ⟨hd, hk⟩
  exact List.length_pos.mpr (List.ne_nil_of_mem hmem)

theorem keyCount_zero_of_not_any (st : Store) (r : PriceRow)
    (h : st.any (keyMatch r) = false) : keyCount st r = 0 := by
  unfold keyCount
  rw [List.length_eq_zero, List.filter_eq_nil_iff]
  intro a ha
  simp only [List.any_eq_false] at h
  exact h a ha

theorem execUpsert_key_fields (t : Nat) (st : Store) (r : PriceRow) :
    ∀ d ∈ execUpsert t st r, keyMatch r d = true →
      d.openV = r.openV ∧ d.highV = r.highV ∧ d.lowV = r.lowV ∧
      d.closeV = r.closeV ∧ d.volume = r.volume ∧ d.updated_at = t := by
  intro d hd hk
  unfold execUpsert at hd
  by_cases h : st.any (keyMatch r)
  · rw [if_pos h] at hd
    rcases List.mem_map.mp hd with ⟨d0, _, rfl⟩
    unfold updFun at hk ⊢
    by_cases hk0 : keyMatch r d0
    · simp [hk0, applyUpdate]
    · rw [if_neg hk0] at hk
      exact absurd hk hk0
  · have hf : st.any (keyMatch r) = false := by simpa using h
    rw [if_neg h] at hd
    rcases List.mem_append.mp hd with hmem | hmem
    · exfalso
      simp only [List.any_eq_false] at hf
      exact hf d hmem hk
    · rw [List.mem_singleton] at hmem
      subst hmem
      simp [newRow]

/-- C1: upsert is an idempotent merge keyed by (symbol, ts): applying the same
row twice yields the same store as applying it once (only updated_at taking
the later timestamp), and a write whose key already exists overwrites the
value fields of the one existing row without creating a second row with that
key. -/
theorem upsert_idempotent_merge (t1 t2 : Nat) (st : Store) (r : PriceRow)
    (hu : keyCount st r ≤ 1) :
    execUpsert t2 (execUpsert t1 st r) r = execUpsert t2 st r ∧
    keyCount (execUpsert t1 st r) r = 1 ∧
    (st.any (keyMatch r) = true → (execUpsert t1 st r).length = st.length) ∧
    ∀ d ∈ execUpsert t1 st r, keyMatch r d = true →
      d.openV = r.openV ∧ d.highV = r.highV ∧ d.lowV = r.lowV ∧
      d.closeV = r.closeV ∧ d.volume = r.volume ∧ d.updated_at = t1 := by
  refine ⟨execUpsert_twice t1 t2 st r, ?_, ?_, execUpsert_key_fields t1 st r⟩
  · by_cases h : st.any (keyMatch r)
    · rw [execUpsert, if_pos h, keyCount_map_updFun]
      exact le_antisymm hu (keyCount_pos_of_any st r h)
    · have hf : st.any (keyMatch r) = false := by simpa using h
      rw [execUpsert, if_neg h]
      unfold keyCount
      rw [List.filter_append]
      have h0 : keyCount st r = 0 := keyCount_zero_of_not_any st r hf
      unfold keyCount at h0
      simp [keyMatch_newRow, h0]
  · intro h
    rw [execUpsert, if_pos h, List.length_map]

theorem upsert_idempotent_merge_witness :
    keyCount [dbSample] rowSample ≤ 1 ∧
    (execUpsert 20 (execUpsert 10 [dbSample] rowSample) rowSample =
       execUpsert 20 [dbSample] rowSample ∧
     keyCount (execUpsert 10 [dbSample] rowSample) rowSample = 1 ∧
     ([dbSample].any (keyMatch rowSample) = true →
       (execUpsert 10 [dbSample] rowSample).length = [dbSample].length) ∧
     ∀ d ∈ execUpsert 10 [dbSample] rowSample, keyMatch rowSample d = true →
       d.openV = rowSample.openV ∧ d.highV = rowSample.highV ∧
       d.lowV = rowSample.lowV ∧ d.closeV = rowSample.closeV ∧
       d.volume = rowSample.volume ∧ d.updated_at = 10) :=
  ⟨by decide, upsert_idempotent_merge 10 20 [dbSample] rowSample (by decide)⟩

/- Lemmas about upsert_rows. -/

theorem foldl_skip_eq_filter (now : Nat) (writeOk : PriceRow → Bool) :
    ∀ (rows : List PriceRow) (st : Store),
      rows.foldl (fun s r => if writeOk r then execUpsert now s r else s) st =
      (rows.filter writeOk).foldl (execUpsert now) st := by
  intro rows
  induction rows with
  | nil => intro st; rfl
  | cons r rest ih =>
    intro st
    by_cases h : writeOk r
    · simp [List.filter_cons, h, ih]
    · simp [List.filter_cons, h, ih]

/-- C8: upsert_rows returns 0 on an empty input without touching the store; on
a non-empty list it returns the number of rows attempted (the length, not the
number of successful writes), and a per-row write failure is skipped without
aborting the writes for the remaining rows: the final store is the fold of the
upsert statement over exactly the rows whose write succeeds. -/
theorem upsert_rows_contract (now : Nat) (writeOk : PriceRow → Bool)
    (st : Store) (rows : List PriceRow) :
    (rows = [] → upsert_rows now writeOk st rows = (st, 0)) ∧
    (rows ≠ [] → (upsert_rows now writeOk st rows).2 = rows.length) ∧
    (upsert_rows now writeOk st rows).1 =
      (rows.filter writeOk).foldl (execUpsert now) st := by
  refine ⟨?_, ?_, ?_⟩
  · intro h
    subst h
    rfl
  · intro h
    have he : rows.isEmpty = false := by
      cases rows with
      | nil => exact absurd rfl h
      | cons a l => rfl
    simp [upsert_rows, he]
  · by_cases h : rows.isEmpty
    · cases rows with
      | nil => rfl
      | cons a l => simp [List.isEmpty] at h
    · have he : rows.isEmpty = false := by simpa using h
      simp [upsert_rows, he, foldl_skip_eq_filter]

theorem upsert_rows_contract_witness :
    ([rowSample, rowSample2] ≠ ([] : List PriceRow) ∧
     (upsert_rows 9 writeOkSample [] [rowSample, rowSample2]).2 =
       [rowSample, rowSample2].length) ∧
    upsert_rows 9 writeOkSample [] [] = ([], 0) :=
  ⟨⟨by decide,
    (upsert_rows_contract 9 writeOkSample [] [rowSample, rowSample2]).2.1
      (by decide)⟩,
   (upsert_rows_contract 9 writeOkSample [] []).1 rfl⟩

/-- C10: when upsert_rows is handed a one-shot iterator of n > 0 rows instead
of a list, the truthiness guard does not fire (a generator object is truthy),
the write loop still attempts every one of the n rows, but the returned count
is 0 rather than n because len(list(rows)) measures the already-exhausted
iterator. -/
theorem upsert_rows_iter_one_shot (now : Nat) (writeOk : PriceRow → Bool)
    (st : Store) (rows : List PriceRow) (h : rows ≠ []) :
    (upsert_rows_iter now writeOk st { pending := rows }).1 =
      (rows.filter writeOk).foldl (execUpsert now) st ∧
    (upsert_rows_iter now writeOk st { pending := rows }).1 =
      (upsert_rows now writeOk st rows).1 ∧
    (upsert_rows_iter now writeOk st { pending := rows }).2 = 0 ∧
    (upsert_rows_iter now writeOk st { pending := rows }).2 ≠ rows.length := by
  have hlen : 0 < rows.length := List.length_pos.mpr h
  have he : rows.isEmpty = false := by
    cases rows with
    | nil => exact absurd rfl h
    | cons a l => rfl
  refine ⟨?_, ?_, ?_, ?_⟩
  · simp [upsert_rows_iter, pyTruthyIterator, drainIterator,
      foldl_skip_eq_filter]
  · simp [upsert_rows_iter, pyTruthyIterator, drainIterator, upsert_rows, he]
  · simp [upsert_rows_iter, pyTruthyIterator, drainIterator]
  · simp only [upsert_rows_iter, pyTruthyIterator, drainIterator]
    simp
    omega

theorem upsert_rows_iter_one_shot_witness :
    [rowSample, rowSample2] ≠ ([] : List PriceRow) ∧
    ((upsert_rows_iter 9 writeOkSample [] { pending := [rowSample, rowSample2] }).1 =
       ([rowSample, rowSample2].filter writeOkSample).foldl (execUpsert 9) [] ∧
     (upsert_rows_iter 9 writeOkSample [] { pending := [rowSample, rowSample2] }).1 =
       (upsert_rows 9 writeOkSample [] [rowSample, rowSample2]).1 ∧
     (upsert_rows_iter 9 writeOkSample [] { pending := [rowSample, rowSample2] }).2 = 0 ∧
     (upsert_rows_iter 9 writeOkSample [] { pending := [rowSample, rowSample2] }).2 ≠
       [rowSample, rowSample2].length) :=
  ⟨by decide,
   upsert_rows_iter_one_shot 9 writeOkSample [] [rowSample, rowSample2]
     (by decide)⟩

/- Lemmas about the retry loop. -/

theorem range_pow_shift (b : ℚ) (a m : Nat) :
    (List.range (m + 1)).map (fun j => b ^ (a + j)) =
    b ^ a :: (List.range m).map (fun j => b ^ (a + 1 + j)) := by
  rw [List.range_succ_eq_map, List.map_cons, List.map_map]
  refine congrArg₂ List.cons (by rw [Nat.add_zero]) (List.map_congr_left ?_)
  intro j _
  have hj : a + Nat.succ j = a + 1 + j := by omega
  simp [Function.comp, hj]

theorem retryAux_all_fail (net : Nat → HttpResult) (retries : Nat) (b : ℚ)
    (msg : Nat → String) :
    ∀ (fuel attempt : Nat), attempt + fuel = retries + 1 → 1 ≤ attempt →
      attempt ≤ retries →
      (∀ i, attempt ≤ i → i ≤ retries →
        attemptOnce (net i) = Except.error (msg i)) →
      retryAux net retries b fuel attempt =
        { result := some (Except.error (msg retries)), attempts := fuel,
          sleeps := (List.range (fuel - 1)).map (fun j => b ^ (attempt + j)) } := by
  intro fuel
  induction fuel with
  | zero =>
    intro attempt hsum h1 hle _
    omega
  | succ fuel ih =>
    intro attempt hsum h1 hle hfail
    have herr : attemptOnce (net attempt) = Except.error (msg attempt) :=
      hfail attempt le_rfl hle
    by_cases heq : attempt = retries
    · have hfuel : fuel = 0 := by omega
      subst hfuel
      subst heq
      simp [retryAux, herr]
    · have hlt : attempt < retries := lt_of_le_of_ne hle heq
      have hrec := ih (attempt + 1) (by omega) (by omega) (by omega)
        (fun i hi1 hi2 => hfail i (by omega) hi2)
      simp only [retryAux, herr]
      rw [if_neg heq, hrec]
      obtain ⟨m, rfl⟩ : ∃ m, fuel = m + 1 := ⟨fuel - 1, by omega⟩
      simp only [Nat.add_sub_cancel, range_pow_shift]

theorem retryAux_congr_net (net net2 : Nat → HttpResult) (retries : Nat)
    (b : ℚ) :
    ∀ (fuel attempt : Nat),
      (∀ i, attempt ≤ i → i < attempt + fuel → net2 i = net i) →
      retryAux net2 retries b fuel attempt =
        retryAux net retries b fuel attempt := by
  intro fuel
  induction fuel with
  | zero => intro attempt _; rfl
  | succ fuel ih =>
    intro attempt h
    have h0 : net2 attempt = net attempt := h attempt le_rfl (by omega)
    cases hc : attemptOnce (net attempt) with
    | ok d => simp [retryAux, h0, hc]
    | error e =>
      by_cases heq : attempt = retries
      · subst heq
        simp [retryAux, h0, hc]
      · simp only [retryAux, h0, hc]
        rw [if_neg heq, if_neg heq,
          ih (attempt + 1) (fun i hi1 hi2 => h i (by omega) (by omega))]

/-- C3: when every attempt of a fetch fails, the client makes exactly the
configured number of attempts (retries, default 5), sleeps only between
attempts (retries - 1 sleeps, none after the final failure), surfaces the
error of the last attempt to the caller, and never makes a (retries+1)th
request: the trace is unchanged under any modification of the network beyond
attempt number retries. -/
theorem retry_exhaustion (net : Nat → HttpResult) (retries : Nat) (b : ℚ)
    (msg : Nat → String) (hret : 1 ≤ retries)
    (hfail : ∀ i, 1 ≤ i → i ≤ retries →
      attemptOnce (net i) = Except.error (msg i)) :
    (_request_with_retries net retries b).result =
      some (Except.error (msg retries)) ∧
    (_request_with_retries net retries b).attempts = retries ∧
    (_request_with_retries net retries b).sleeps =
      (List.range (retries - 1)).map (fun j => b ^ (1 + j)) ∧
    (∀ net2, (∀ i, 1 ≤ i → i ≤ retries → net2 i = net i) →
      _request_with_retries net2 retries b =
        _request_with_retries net retries b) := by
  have hmain := retryAux_all_fail net retries b msg retries 1 (by omega)
    le_rfl hret hfail
  unfold _request_with_retries
  rw [hmain]
  refine ⟨rfl, rfl, rfl, ?_⟩
  intro net2 h2
  rw [retryAux_congr_net net net2 retries b retries 1
    (fun i hi1 hi2 => h2 i hi1 (by omega)), hmain]

theorem retry_exhaustion_witness :
    (_request_with_retries netBoom 5 (3 / 2)).result =
      some (Except.error "boom") ∧
    (_request_with_retries netBoom 5 (3 / 2)).attempts = 5 :=
  ⟨(retry_exhaustion netBoom 5 (3 / 2) (fun _ => "boom") (by decide)
      (fun _ _ _ => rfl)).1,
   (retry_exhaustion netBoom 5 (3 / 2) (fun _ => "boom") (by decide)
      (fun _ _ _ => rfl)).2.1⟩

theorem pow_lt_pow_succQ (b : ℚ) (hb : 1 < b) (k : Nat) :
    b ^ k < b ^ (k + 1) := by
  have hb0 : (0 : ℚ) < b := lt_trans one_pos hb
  calc b ^ k = b ^ k * 1 := (mul_one _).symm
    _ < b ^ k * b := mul_lt_mul_of_pos_left hb (pow_pos hb0 k)
    _ = b ^ (k + 1) := (pow_succ b k).symm

/-- C4: before every retry the client sleeps backoff ^ attempt (attempt
counted from 1); for a fetch failing transiently on attempts 1..3 and
succeeding on attempt 4, the client returns the success after exactly 3
retries (4 attempts), with sleep schedule exactly [b^1, b^2, b^3] and no
sleep after the successful attempt; the waits are strictly increasing
whenever the base exceeds 1 (default 1.5). -/
theorem retry_transient_backoff (net : Nat → HttpResult) (b : ℚ) (p : Payload)
    (e1 e2 e3 : String)
    (h1 : attemptOnce (net 1) = Except.error e1)
    (h2 : attemptOnce (net 2) = Except.error e2)
    (h3 : attemptOnce (net 3) = Except.error e3)
    (h4 : attemptOnce (net 4) = Except.ok p) :
    _request_with_retries net 5 b =
      { result := some (Except.ok p), attempts := 4,
        sleeps := [b ^ 1, b ^ 2, b ^ 3] } ∧
    (1 < b → b ^ 1 < b ^ 2 ∧ b ^ 2 < b ^ 3) := by
  constructor
  · unfold _request_with_retries
    simp [retryAux, h1, h2, h3, h4]
  · intro hb
    exact ⟨pow_lt_pow_succQ b hb 1, pow_lt_pow_succQ b hb 2⟩

theorem retry_transient_backoff_witness :
    _request_with_retries netTransient 5 (3 / 2) =
      { result := some (Except.ok goodPayload), attempts := 4,
        sleeps := [(3 / 2 : ℚ) ^ 1, (3 / 2 : ℚ) ^ 2, (3 / 2 : ℚ) ^ 3] } ∧
    ((3 / 2 : ℚ) ^ 1 < (3 / 2 : ℚ) ^ 2 ∧ (3 / 2 : ℚ) ^ 2 < (3 / 2 : ℚ) ^ 3) :=
  ⟨(retry_transient_backoff netTransient (3 / 2) goodPayload "t" "t" "t"
      (by decide) (by decide) (by decide) (by decide)).1,
   (retry_transient_backoff netTransient (3 / 2) goodPayload "t" "t" "t"
      (by decide) (by decide) (by decide) (by decide)).2 (by norm_num)⟩

theorem retryAux_shape_congr (net net2 : Nat → HttpResult) (retries : Nat)
    (b : ℚ)
    (hpat : ∀ i, isOkE (attemptOnce (net i)) = isOkE (attemptOnce (net2 i))) :
    ∀ (fuel attempt : Nat),
      traceShape (retryAux net retries b fuel attempt) =
      traceShape (retryAux net2 retries b fuel attempt) := by
  intro fuel
  induction fuel with
  | zero => intro attempt; rfl
  | succ fuel ih =>
    intro attempt
    cases hc : attemptOnce (net attempt) with
    | ok d =>
      cases hc2 : attemptOnce (net2 attempt) with
      | ok d2 => simp [retryAux, hc, hc2, traceShape, isOkE]
      | error e2 =>
        exfalso
        have hp := hpat attempt
        rw [hc, hc2] at hp
        simp [isOkE] at hp
    | error e =>
      cases hc2 : attemptOnce (net2 attempt) with
      | ok d2 =>
        exfalso
        have hp := hpat attempt
        rw [hc, hc2] at hp
        simp [isOkE] at hp
      | error e2 =>
        by_cases heq : attempt = retries
        · subst heq
          simp [retryAux, hc, hc2, traceShape, isOkE]
        · have hrec := ih (attempt + 1)
          simp only [retryAux, hc, hc2]
          rw [if_neg heq, if_neg heq]
          have ha := congrArg (fun x => x.1) hrec
          have hs := congrArg (fun x => x.2.1) hrec
          have hr := congrArg (fun x => x.2.2) hrec
          simp only [traceShape] at ha hs hr ⊢
          simp [ha, hs, hr]

/-- C9: a provider-signaled soft failure (a Note rate-limit key or an
embedded Error Message key in a 2xx response body) is classified as an error
by the attempt body, and the retry loop treats it exactly like a transport
failure: same attempt count, same backoff sleep schedule, and an error
result, for every retry budget and backoff base. -/
theorem soft_failure_retryable (status : Nat) (body : Payload) (tmsg : String)
    (hstatus : status < 400)
    (hkey : hasKeyP body "Note" = true ∨
      hasKeyP body "Error Message" = true) :
    (∃ m, attemptOnce (HttpResult.response status body) = Except.error m) ∧
    (∀ retries b,
      traceShape (_request_with_retries
        (fun _ => HttpResult.response status body) retries b) =
      traceShape (_request_with_retries
        (fun _ => HttpResult.transportError tmsg) retries b)) := by
  have hs400 : ¬ (400 ≤ status) := by omega
  have herr : ∃ m, attemptOnce (HttpResult.response status body) =
      Except.error m := by
    simp only [attemptOnce]
    rw [if_neg hs400]
    rcases hkey with hk | hk
    · rw [if_pos hk]
      exact ⟨_, rfl⟩
    · by_cases hn : hasKeyP body "Note"
      · rw [if_pos hn]
        exact ⟨_, rfl⟩
      · rw [if_neg hn, if_pos hk]
        exact ⟨_, rfl⟩
  refine ⟨herr, ?_⟩
  intro retries b
  unfold _request_with_retries
  apply retryAux_shape_congr
  intro i
  rcases herr with ⟨m, hm⟩
  show isOkE (attemptOnce (HttpResult.response status body)) =
    isOkE (attemptOnce (HttpResult.transportError tmsg))
  rw [hm]
  rfl

theorem soft_failure_retryable_witness :
    (∃ m, attemptOnce (HttpResult.response 200 notePayload) =
      Except.error m) ∧
    traceShape (_request_with_retries
      (fun _ => HttpResult.response 200 notePayload) 5 (3 / 2)) =
    traceShape (_request_with_retries
      (fun _ => HttpResult.transportError "t") 5 (3 / 2)) :=
  ⟨(soft_failure_retryable 200 notePayload "t" (by decide)
      (Or.inl (by decide))).1,
   (soft_failure_retryable 200 notePayload "t" (by decide)
      (Or.inl (by decide))).2 5 (3 / 2)⟩

/- Lemmas about normalization. -/

theorem parseRecord_some (pf : String → Option ℚ) (pz : String → Option Int)
    (symbol : String) (e : String × RawVals) (r : PriceRow)
    (h : parseRecord pf pz symbol e = some r) :
    r.symbol = symbol ∧ r.ts = e.1 := by
  unfold parseRecord at h
  split at h
  · cases h
    exact ⟨rfl, rfl⟩
  · cases h

theorem mem_normalizeSeries (pf : String → Option ℚ) (pz : String → Option Int)
    (symbol : String) :
    ∀ (series : List (String × RawVals)) (r : PriceRow),
      r ∈ (normalizeSeries pf pz symbol series).1 →
      r.symbol = symbol ∧ ∃ e ∈ series, r.ts = e.1 := by
  intro series
  induction series with
  | nil =>
    intro r hr
    simp [normalizeSeries] at hr
  | cons e rest ih =>
    intro r hr
    simp only [normalizeSeries] at hr
    cases hp : parseRecord pf pz symbol e with
    | some r0 =>
      rw [hp] at hr
      simp only [List.mem_cons] at hr
      rcases hr with rfl | hr
      · obtain ⟨h1, h2⟩ := parseRecord_some pf pz symbol e r hp
        exact ⟨h1, e, List.mem_cons_self e rest, h2⟩
      · obtain ⟨h1, e2, he2, h2⟩ := ih r hr
        exact ⟨h1, e2, List.mem_cons_of_mem e he2, h2⟩
    | none =>
      rw [hp] at hr
      obtain ⟨h1, e2, he2, h2⟩ := ih r hr
      exact ⟨h1, e2, List.mem_cons_of_mem e he2, h2⟩

theorem normalizeSeries_counts (pf : String → Option ℚ)
    (pz : String → Option Int) (symbol : String) :
    ∀ series, (normalizeSeries pf pz symbol series).1.length +
        (normalizeSeries pf pz symbol series).2 = series.length ∧
      (normalizeSeries pf pz symbol series).2 =
        malformedCount pf pz symbol series := by
  intro series
  induction series with
  | nil => exact ⟨rfl, rfl⟩
  | cons e rest ih =>
    cases hp : parseRecord pf pz symbol e with
    | some r0 =>
      have h1 : normalizeSeries pf pz symbol (e :: rest) =
          (r0 :: (normalizeSeries pf pz symbol rest).1,
           (normalizeSeries pf pz symbol rest).2) := by
        simp [normalizeSeries, hp]
      have h2 : malformedCount pf pz symbol (e :: rest) =
          malformedCount pf pz symbol rest := by
        simp [malformedCount, List.filter_cons, hp]
      rw [h1, h2]
      simp only [List.length_cons]
      have hi1 := ih.1
      have hi2 := ih.2
      exact ⟨by omega, hi2⟩
    | none =>
      have h1 : normalizeSeries pf pz symbol (e :: rest) =
          ((normalizeSeries pf pz symbol rest).1,
           (normalizeSeries pf pz symbol rest).2 + 1) := by
        simp [normalizeSeries, hp]
      have h2 : malformedCount pf pz symbol (e :: rest) =
          malformedCount pf pz symbol rest + 1 := by
        simp [malformedCount, List.filter_cons, hp]
      rw [h1, h2]
      simp only [List.length_cons]
      have hi1 := ih.1
      have hi2 := ih.2
      exact ⟨by omega, by omega⟩

/-- C7: for a successful fetch whose series holds N records of which k fail to
parse, normalization yields exactly N - k rows, logs exactly k skip warnings,
is total (never raises past the per-record boundary), every output row
carries the fetched symbol and a ts taken from a record key, and with k = 0
it yields exactly N rows. -/
theorem normalization_malformed_contract (pf : String → Option ℚ)
    (pz : String → Option Int) (symbol : String)
    (series : List (String × RawVals)) :
    (normalizeSeries pf pz symbol series).1.length =
      series.length - malformedCount pf pz symbol series ∧
    (normalizeSeries pf pz symbol series).2 =
      malformedCount pf pz symbol series ∧
    (malformedCount pf pz symbol series = 0 →
      (normalizeSeries pf pz symbol series).1.length = series.length) ∧
    (∀ r ∈ (normalizeSeries pf pz symbol series).1,
      r.symbol = symbol ∧ ∃ e ∈ series, r.ts = e.1) := by
  have hc := normalizeSeries_counts pf pz symbol series
  have hc1 := hc.1
  have hc2 := hc.2
  exact ⟨by omega, hc2, fun h0 => by omega,
    mem_normalizeSeries pf pz symbol series⟩

theorem normalization_malformed_contract_witness :
    ((normalizeSeries pfOne pzOne "AAPL" seriesMixed).1.length =
       seriesMixed.length - malformedCount pfOne pzOne "AAPL" seriesMixed ∧
     (normalizeSeries pfOne pzOne "AAPL" seriesMixed).2 =
       malformedCount pfOne pzOne "AAPL" seriesMixed) ∧
    (rowOne ∈ (normalizeSeries pfOne pzOne "AAPL" seriesMixed).1 ∧
     (rowOne.symbol = "AAPL" ∧ ∃ e ∈ seriesMixed, rowOne.ts = e.1)) :=
  ⟨⟨(normalization_malformed_contract pfOne pzOne "AAPL" seriesMixed).1,
    (normalization_malformed_contract pfOne pzOne "AAPL" seriesMixed).2.1⟩,
   ⟨by decide,
    (normalization_malformed_contract pfOne pzOne "AAPL" seriesMixed).2.2.2
      rowOne (by decide)⟩⟩

/-- C6 counterexample: a provider date key carrying a time-of-day component is
copied into ts unchanged, so the output ts is not a canonical YYYY-MM-DD
string; nothing in normalization discards a time component. -/
theorem ts_time_component_kept :
    (normalizeSeries pfOne pzOne "AAPL" [(tsOddKey, valsOne)]).1.map
        (fun r => r.ts) = [tsOddKey] ∧
    isCanonicalDate tsOddKey = false := by
  constructor
  · decide
  · decide

/-- C6 (amended): the ts of every normalized row is the provider date key
copied verbatim; no time-of-day component is stripped, so ts is a canonical
YYYY-MM-DD string exactly when the provider key already is (which holds for
every key of a well-formed daily series). -/
theorem ts_copied_verbatim (pf : String → Option ℚ) (pz : String → Option Int)
    (symbol : String) (series : List (String × RawVals)) :
    ∀ r ∈ (normalizeSeries pf pz symbol series).1,
      (∃ e ∈ series, r.ts = e.1) ∧
      ((∀ e ∈ series, isCanonicalDate e.1 = true) →
        isCanonicalDate r.ts = true) := by
  intro r hr
  obtain ⟨-, e, he, hts⟩ := mem_normalizeSeries pf pz symbol series r hr
  refine ⟨⟨e, he, hts⟩, fun hall => ?_⟩
  rw [hts]
  exact hall e he

theorem ts_copied_verbatim_witness :
    rowOne ∈ (normalizeSeries pfOne pzOne "AAPL" [("2024-01-02", valsOne)]).1 ∧
    ((∃ e ∈ [("2024-01-02", valsOne)], rowOne.ts = e.1) ∧
     ((∀ e ∈ [("2024-01-02", valsOne)], isCanonicalDate e.1 = true) →
       isCanonicalDate rowOne.ts = true)) :=
  ⟨by decide,
   ts_copied_verbatim pfOne pzOne "AAPL" [("2024-01-02", valsOne)] rowOne
     (by decide)⟩

/-- C5 counterexample: a successful response with no time-series key at all
(an absent result set) makes fetch_daily_adjusted raise
ValueError("Unexpected response structure ..."), so an absent result set IS
an error, contrary to the claim; nothing is logged as "no data". -/
theorem absent_series_is_error :
    fetch_daily_adjusted pfOne pzOne
      (fun _ => HttpResult.response 200 metaOnlyPayload) "AAPL" =
    Except.error "Unexpected response structure for AAPL" := by
  rfl

/-- C5 (amended): a fetch whose response carries a present-but-EMPTY
time-series object is not an error: it yields zero rows, and the resulting
persistence call attempts 0 rows and leaves the store untouched. (An absent
time-series key, by contrast, raises ValueError, and no "no data" log
exists.) -/
theorem empty_series_yields_zero_rows (pf : String → Option ℚ)
    (pz : String → Option Int) (net : Nat → HttpResult) (payload : Payload)
    (symbol k : String) (now : Nat) (writeOk : PriceRow → Bool) (st : Store)
    (hnet : attemptOnce (net 1) = Except.ok payload)
    (hk : findTsKey payload = some k)
    (hv : getValP payload k = some (PVal.series [])) :
    fetch_daily_adjusted pf pz net symbol = Except.ok [] ∧
    upsert_rows now writeOk st [] = (st, 0) := by
  have hhas : hasKeyP payload k = true := by
    unfold findTsKey at hk
    obtain ⟨kv, hfind, hk1⟩ := Option.map_eq_some'.mp hk
    have hmem := List.mem_of_find?_eq_some hfind
    unfold hasKeyP
    exact List.any_eq_true.mpr ⟨kv, hmem, by simp [hk1]⟩
  constructor
  · simp [fetch_daily_adjusted, _request_with_retries, retryAux, hnet, hk,
      hhas, hv, normalizeSeries]
  · rfl

theorem empty_series_yields_zero_rows_witness :
    fetch_daily_adjusted pfOne pzOne
      (fun _ => HttpResult.response 200 emptySeriesPayload) "AAPL" =
      Except.ok [] ∧
    upsert_rows 7 (fun _ => true) [dbSample] [] = ([dbSample], 0) :=
  empty_series_yields_zero_rows pfOne pzOne
    (fun _ => HttpResult.response 200 emptySeriesPayload) emptySeriesPayload
    "AAPL" "Time Series (Daily)" 7 (fun _ => true) [dbSample]
    (by decide) (by decide) (by decide)

/-- C2: run_once isolates per-symbol failures: if symbol b fails anywhere in
its fetch-normalize stage, the run over xs ++ [b] ++ ys equals the run over
xs followed by the run over ys — b contributes nothing, no later symbol is
skipped, and no error escapes (run_once is a total function of the store in
this model; the caught exception is only logged). -/
theorem run_once_isolation (pf : String → Option ℚ) (pz : String → Option Int)
    (responses : String → Nat → HttpResult) (writeOk : PriceRow → Bool)
    (now : Nat) (xs ys : List String) (b : String) (st : Store) (e : String)
    (hb : fetch_daily_adjusted pf pz (responses b) b = Except.error e) :
    run_once pf pz responses writeOk now (xs ++ b :: ys) st =
      run_once pf pz responses writeOk now ys
        (run_once pf pz responses writeOk now xs st) := by
  unfold run_once
  rw [List.foldl_append, List.foldl_cons]
  simp only [processSymbol, hb]

theorem run_once_isolation_witness :
    run_once pfOne pzOne responsesABC (fun _ => true) 7
      (["A"] ++ "B" :: ["C"]) [] =
      run_once pfOne pzOne responsesABC (fun _ => true) 7 ["C"]
        (run_once pfOne pzOne responsesABC (fun _ => true) 7 ["A"] []) :=
  run_once_isolation pfOne pzOne responsesABC (fun _ => true) 7 ["A"] ["C"]
    "B" [] "boom" (by rfl)
